import Mathlib

/-!
# Verification of the Maneuver scouting-data sync core

A shallow embedding of the data-synchronization and signaling core of the
repository:

* `src/core/lib/scoutingDataUtils.ts` — deterministic ids, the FNV-1a payload
  fingerprint, and the conflict classifier `detectConflicts`;
* `src/core/lib/uploadHandlers/scoutingDataUploadHandler.ts` — the upload
  orchestrator;
* `src/core/hooks/useConflictResolution.ts` — the resolution workflow state
  machine (resolve / batch / undo);
* the Netlify signaling relay (`webrtc-signal`) — POST message intake and GET
  polling with delivery tracking and queue cleanup.

JavaScript values that can appear in a record payload are embedded as `JVal`;
plain objects are association lists whose order models the object's property
enumeration order.  JS 32-bit integer arithmetic is modelled on `Nat` with
explicit `% 2^32`.  The persistent store (IndexedDB via Dexie) is modelled as a
list of entries with `put` / `delete` keyed by `id`.
-/

/-- A JSON-like JavaScript value.  Objects carry their key enumeration order. -/
inductive JVal where
  | null : JVal
  | bool (b : Bool) : JVal
  | num (n : Int) : JVal
  | str (s : String) : JVal
  | arr (elems : List JVal) : JVal
  | obj (fields : List (String × JVal)) : JVal

/-- One hex digit (for JSON control-character escapes). -/
def hexDigit (n : Nat) : Char :=
  if n < 10 then Char.ofNat (48 + n) else Char.ofNat (87 + n)

/-- JSON escaping of a single character, as `JSON.stringify` performs it. -/
def jsonEscapeChar (c : Char) : String :=
  if c = '"' then "\\\""
  else if c = '\\' then "\\\\"
  else if c = '\n' then "\\n"
  else if c = '\r' then "\\r"
  else if c = '\t' then "\\t"
  else if c = Char.ofNat 8 then "\\b"
  else if c = Char.ofNat 12 then "\\f"
  else if c.toNat < 32 then
    "\\u00" ++ String.mk [hexDigit (c.toNat / 16), hexDigit (c.toNat % 16)]
  else String.singleton c

/-- A JSON string literal: quotes around the escaped characters. -/
def jsonQuote (s : String) : String :=
  "\"" ++ String.join (s.data.map jsonEscapeChar) ++ "\""

mutual

/-- Model of `JSON.stringify` on an embedded value.  Object fields are serialized in
enumeration (insertion) order, exactly as JavaScript does. -/
def stringifyJson : JVal → String
  | .null => "null"
  | .bool true => "true"
  | .bool false => "false"
  | .num n => toString n
  | .str s => jsonQuote s
  | .arr elems => "[" ++ stringifyJsonList elems ++ "]"
  | .obj fields => "\x7b" ++ stringifyJsonFields fields ++ "\x7d"

/-- Comma-separated serialization of array elements. -/
def stringifyJsonList : List JVal → String
  | [] => ""
  | [v] => stringifyJson v
  | v :: rest => stringifyJson v ++ "," ++ stringifyJsonList rest

/-- Comma-separated serialization of object fields. -/
def stringifyJsonFields : List (String × JVal) → String
  | [] => ""
  | [(k, v)] => jsonQuote k ++ ":" ++ stringifyJson v
  | (k, v) :: rest => jsonQuote k ++ ":" ++ stringifyJson v ++ "," ++ stringifyJsonFields rest

end

-- ==========================================================================
-- Identity & fingerprint module (src/core/lib/scoutingDataUtils.ts)
-- ==========================================================================

/-- The UTF code units of a string (all keys in this development are in the
basic plane, where Lean code points and JS UTF-16 units coincide). -/
def strCodes (s : String) : List Nat := s.data.map Char.toNat

/-- Lexicographic order on code sequences; models the ascending order the
comparator `(a, b) => a.localeCompare(b)` induces on the key strings. -/
def lexLe : List Nat → List Nat → Bool
  | [], _ => true
  | _ :: _, [] => false
  | a :: as, b :: bs => decide (a < b) || (decide (a = b) && lexLe as bs)

/-- Key comparison used to sort payload entries before hashing. -/
def keyLe (a b : String) : Prop := lexLe (strCodes a) (strCodes b) = true

instance : DecidableRel keyLe := fun a b => by unfold keyLe; infer_instance

/-- The comparator of `generateDataFingerprint`, lifted to key/value pairs. -/
def entryLe (p q : String × JVal) : Prop := keyLe p.1 q.1

instance : DecidableRel entryLe := fun p q => by unfold entryLe; infer_instance

/-- One step of the 32-bit FNV-1a-style loop: `hash ^= code; hash =
Math.imul(hash, 16777619)`, on `Nat` modulo `2^32`. -/
def fnvStep (h c : Nat) : Nat := ((h ^^^ c) * 16777619) % 4294967296

/-- The full hash loop of `generateDataFingerprint`, starting from the offset
basis 2166136261.  The result is the value of `hash >>> 0`. -/
def fnvHash (codes : List Nat) : Nat := codes.foldl fnvStep 2166136261

/-- Base-36 digit character (digits then lowercase letters), as used by
JavaScript's `Number.prototype.toString(36)`. -/
def digitChar36 (d : Nat) : Char :=
  if d < 10 then Char.ofNat (48 + d) else Char.ofNat (87 + d)

/-- JS `n.toString(36)` for `n < 36^7` (every 32-bit value qualifies): the seven
base-36 digits of `n`, leading zeros dropped. -/
def toBase36of32 (n : Nat) : String :=
  let digits := [n / 36 ^ 6 % 36, n / 36 ^ 5 % 36, n / 36 ^ 4 % 36,
    n / 36 ^ 3 % 36, n / 36 ^ 2 % 36, n / 36 % 36, n % 36]
  match digits.dropWhile (· = 0) with
  | [] => "0"
  | ds => String.mk (ds.map digitChar36)

/-- The `ScoutingEntryBase`: the core record shape, restricted to the fields the
sync subsystem reads.  `gameData` is `none` when the field is absent;
`lastCorrectedAt` is `none` when absent (it is only set on corrected
records); `timestamp` is always present (set at creation). -/
structure ScoutingEntryBase where
  id : String
  eventKey : String
  matchKey : String
  matchNumber : Nat
  teamNumber : Nat
  allianceColor : String
  scoutName : String
  gameData : Option (List (String × JVal))
  timestamp : Int
  isCorrected : Bool
  lastCorrectedAt : Option Int

/-- ASCII lower-casing of one character (`String.prototype.toLowerCase` on the
ASCII range the identity fields use). -/
def charToLowerJS (c : Char) : Char :=
  if 65 ≤ c.toNat ∧ c.toNat ≤ 90 then Char.ofNat (c.toNat + 32) else c

/-- The `String.prototype.toLowerCase`. -/
def strToLower (s : String) : String := String.mk (s.data.map charToLowerJS)

/-- Whitespace as `String.prototype.trim` strips it (the common characters). -/
def isTrimWhitespace (c : Char) : Bool :=
  c == ' ' || c == '\t' || c == '\n' || c == '\r' ||
    c == Char.ofNat 11 || c == Char.ofNat 12

/-- The `String.prototype.trim`: strip leading and trailing whitespace. -/
def strTrim (s : String) : String :=
  String.mk (((s.data.dropWhile isTrimWhitespace).reverse.dropWhile isTrimWhitespace).reverse)

/-- The `normalizeEventKey`: lowercase and trim. -/
def normalizeEventKey (eventKey : String) : String := strTrim (strToLower eventKey)

/-- The `generateDeterministicEntryId`: normalized fields joined with `::`. -/
def generateDeterministicEntryId (eventKey matchKey : String) (teamNumber : Nat)
    (allianceColor : String) : String :=
  let event := normalizeEventKey eventKey
  let matchPart := strTrim (strToLower matchKey)
  let team := strTrim (toString teamNumber)
  let alliance := strTrim (strToLower allianceColor)
  event ++ "::" ++ matchPart ++ "::" ++ team ++ "::" ++ alliance

/-- The deterministic id of an entry's own identity fields. -/
def deterministicIdOf (e : ScoutingEntryBase) : String :=
  generateDeterministicEntryId e.eventKey e.matchKey e.teamNumber e.allianceColor

/-- The sorted key/value list of `generateDataFingerprint`: payload entries
sorted by key (stable sort with the key comparator). -/
def sortedGameData (e : ScoutingEntryBase) : List (String × JVal) :=
  (e.gameData.getD []).insertionSort entryLe

/-- The `dataString` of `generateDataFingerprint`: the sorted entries rendered
as `key:JSON(value)` and joined with `|`. -/
def fingerprintDataString (e : ScoutingEntryBase) : String :=
  String.intercalate "|" ((sortedGameData e).map fun p => p.1 ++ ":" ++ stringifyJson p.2)

/-- The `generateDataFingerprint`: the unsigned 32-bit FNV-style hash of the
data string, base-36 encoded. -/
def generateDataFingerprint (e : ScoutingEntryBase) : String :=
  toBase36of32 (fnvHash (strCodes (fingerprintDataString e)))

-- ==========================================================================
-- Conflict classifier (detectConflicts and computeChangedFields)
-- ==========================================================================

/-- Lookup in a JS `Map` built from a pair list: the last binding of a key
wins (later constructor entries overwrite earlier ones). -/
def jsMapGet (pairs : List (String × ScoutingEntryBase)) (k : String) :
    Option ScoutingEntryBase :=
  pairs.foldl (fun acc p => if p.1 = k then some p.2 else acc) none

/-- The classifier's match lookup: primary `id` first, then the
deterministic-id index over all local entries. -/
def findMatchingLocal (allLocalEntries : List ScoutingEntryBase)
    (incomingEntry : ScoutingEntryBase) : Option ScoutingEntryBase :=
  match jsMapGet (allLocalEntries.map fun m => (m.id, m)) incomingEntry.id with
  | some m => some m
  | none =>
    jsMapGet (allLocalEntries.map fun m => (deterministicIdOf m, m))
      (deterministicIdOf incomingEntry)

/-- The `Number(entry.lastCorrectedAt || entry.timestamp || 0)`: JS `||` falls
through on the falsy values `undefined` and `0`. -/
def correctionTime (e : ScoutingEntryBase) : Int :=
  match e.lastCorrectedAt with
  | some t => if t = 0 then e.timestamp else t
  | none => e.timestamp

mutual

/-- Flattening of one payload value under its full dotted key: plain objects
recurse, everything else (including `null` and arrays) is stored as-is. -/
def flattenValue (fullKey : String) (v : JVal) : List (String × JVal) :=
  match v with
  | .obj fields => flattenFields fullKey fields
  | v => [(fullKey, v)]

/-- The `flattenObject` of `computeChangedFields`: dot-notation flattening of an
object's fields, in enumeration order. -/
def flattenFields (prefixKey : String) (fields : List (String × JVal)) :
    List (String × JVal) :=
  match fields with
  | [] => []
  | (k, v) :: rest =>
    flattenValue (if prefixKey = "" then k else prefixKey ++ "." ++ k) v ++
      flattenFields prefixKey rest

end

/-- Value of a flattened key: repeated assignments to the same key overwrite,
so the last occurrence wins. -/
def lookupLastVal (l : List (String × JVal)) (k : String) : Option JVal :=
  l.foldl (fun acc p => if p.1 = k then some p.2 else acc) none

/-- Key dedup keeping first occurrences (JS object / `Set` insertion order). -/
def dedupKeysAux (seen : List String) : List String → List String
  | [] => []
  | k :: rest =>
    if seen.contains k then dedupKeysAux seen rest
    else k :: dedupKeysAux (k :: seen) rest

/-- First-occurrence key list, as `Object.keys` of the flattened object. -/
def dedupKeysFirst (ks : List String) : List String := dedupKeysAux [] ks

/-- One entry of `changedFields`. -/
structure ChangedField where
  field : String
  localValue : JVal
  incomingValue : JVal

/-- The `computeChangedFields`: flatten both payloads to dot-paths, take the union
of the keys, skip fields where either side is `null`/absent, and report the
fields whose JSON serializations differ. -/
def computeChangedFields (localEntry incomingEntry : ScoutingEntryBase) :
    List ChangedField :=
  let flattenedLocal := flattenFields "" (localEntry.gameData.getD [])
  let flattenedIncoming := flattenFields "" (incomingEntry.gameData.getD [])
  let allFields := dedupKeysFirst
    (dedupKeysFirst (flattenedLocal.map Prod.fst) ++
      dedupKeysFirst (flattenedIncoming.map Prod.fst))
  allFields.filterMap fun field =>
    match lookupLastVal flattenedIncoming field, lookupLastVal flattenedLocal field with
    | none, _ => none
    | some JVal.null, _ => none
    | _, none => none
    | _, some JVal.null => none
    | some iv, some lv =>
      if stringifyJson lv = stringifyJson iv then none
      else some ⟨field, lv, iv⟩

/-- The two conflict kinds. -/
inductive ConflictType where
  | correctedVsUncorrected : ConflictType
  | correctedVsCorrected : ConflictType
deriving DecidableEq

/-- The `ConflictInfo` as produced by the classifier. -/
structure ConflictInfo where
  incoming : ScoutingEntryBase
  local_ : ScoutingEntryBase
  conflictType : ConflictType
  isNewerIncoming : Bool
  changedFields : List ChangedField

/-- Where one incoming entry is routed. -/
inductive ClassifyOutcome where
  | autoImport : ClassifyOutcome
  | autoReplace : ClassifyOutcome
  | batchReview : ClassifyOutcome
  | conflictOut (ci : ConflictInfo) : ClassifyOutcome
  | discard : ClassifyOutcome

/-- The per-entry body of the `detectConflicts` loop. -/
def classifyEntry (allLocalEntries : List ScoutingEntryBase)
    (incomingEntry : ScoutingEntryBase) : ClassifyOutcome :=
  match findMatchingLocal allLocalEntries incomingEntry with
  | none => .autoImport
  | some matchingLocal =>
    let localIsCorrected := matchingLocal.isCorrected
    let incomingIsCorrected := incomingEntry.isCorrected
    let localFingerprint := generateDataFingerprint matchingLocal
    let incomingFingerprint := generateDataFingerprint incomingEntry
    let discardDup : Bool :=
      if localIsCorrected && incomingIsCorrected then
        decide (localFingerprint = incomingFingerprint ∧
          (correctionTime matchingLocal - correctionTime incomingEntry).natAbs ≤ 1000)
      else
        decide (localFingerprint = incomingFingerprint) &&
          (localIsCorrected == incomingIsCorrected)
    if discardDup then .discard
    else if !localIsCorrected && !incomingIsCorrected then .batchReview
    else if !localIsCorrected && incomingIsCorrected then .autoReplace
    else if localIsCorrected && !incomingIsCorrected then
      .conflictOut ⟨incomingEntry, matchingLocal, .correctedVsUncorrected, false,
        computeChangedFields matchingLocal incomingEntry⟩
    else
      if (correctionTime matchingLocal - correctionTime incomingEntry).natAbs ≤ 1000 then
        .autoReplace
      else
        .conflictOut ⟨incomingEntry, matchingLocal, .correctedVsCorrected,
          decide (correctionTime matchingLocal < correctionTime incomingEntry),
          computeChangedFields matchingLocal incomingEntry⟩

/-- The classifier's four output buckets. -/
structure ConflictDetectionResult where
  autoImport : List ScoutingEntryBase
  autoReplace : List ScoutingEntryBase
  batchReview : List ScoutingEntryBase
  conflicts : List ConflictInfo

/-- The `detectConflicts`, with the store read (`db.scoutingData.toArray()`) made
an explicit `allLocalEntries` argument. -/
def detectConflicts (allLocalEntries incomingData : List ScoutingEntryBase) :
    ConflictDetectionResult :=
  match incomingData with
  | [] => ⟨[], [], [], []⟩
  | e :: rest =>
    let r := detectConflicts allLocalEntries rest
    match classifyEntry allLocalEntries e with
    | .autoImport => { r with autoImport := e :: r.autoImport }
    | .autoReplace => { r with autoReplace := e :: r.autoReplace }
    | .batchReview => { r with batchReview := e :: r.batchReview }
    | .conflictOut ci => { r with conflicts := ci :: r.conflicts }
    | .discard => r


-- ==========================================================================
-- Signaling relay (webrtc-signal Netlify function)
-- ==========================================================================

/-- First-occurrence lookup in an association list (JS `Map.get`; construction
below keeps keys unique, so first = only). -/
def assocGet {β : Type} (m : List (String × β)) (k : String) : Option β :=
  match m with
  | [] => none
  | p :: rest => if p.1 = k then some p.2 else assocGet rest k

/-- JS `Map.set`: update the existing binding in place, else append. -/
def assocSet {β : Type} (m : List (String × β)) (k : String) (v : β) :
    List (String × β) :=
  match m with
  | [] => [(k, v)]
  | p :: rest => if p.1 = k then (k, v) :: rest else p :: assocSet rest k v

/-- JS `Map.delete`: drop the binding of `k` (keys are unique, so removing
every occurrence coincides with removing the one binding). -/
def assocDelete {β : Type} (m : List (String × β)) (k : String) :
    List (String × β) :=
  m.filter (fun p => p.1 != k)

/-- The `a || d` on JS strings: the default is used when `a` is absent or empty
(both are falsy). -/
def jsOrStr (o : Option String) (d : String) : String :=
  match o with
  | some s => if s = "" then d else s
  | none => d

/-- Signaling message types. -/
inductive MsgType where
  | offer | answer | iceCandidate | join | leave | ping
deriving DecidableEq, BEq

/-- Peer roles. -/
inductive Role where
  | lead | scout
deriving DecidableEq, BEq

/-- A connected peer as the room tracks it. -/
structure Peer where
  id : String
  name : String
  lastSeen : Int

/-- A `SignalingMessage`: wire fields are optional; `deliveredTo` is the
server-side delivery-tracking set (a list without duplicates here). -/
structure SigMsg where
  type : MsgType
  roomId : Option String
  peerId : Option String
  peerName : Option String
  role : Option Role
  targetPeerId : Option String
  data : Option JVal
  deliveredTo : List String

/-- A relay room. -/
structure Room where
  id : String
  lead : Option Peer
  scouts : List (String × Peer)
  messages : List SigMsg
  createdAt : Int

/-- The process-wide room table, made an explicit value. -/
abbrev RoomsMap : Type := List (String × Room)

/-- A fresh room as created on first reference. -/
def newRoom (roomId : String) (now : Int) : Room := ⟨roomId, none, [], [], now⟩

/-- A message as appended to the queue: the POST body spread with a fresh
empty `deliveredTo` set. -/
def enqueueMsg (m : SigMsg) : SigMsg := { m with deliveredTo := [] }

/-- Relay POST responses. -/
inductive PostResponse where
  | badRequest
  | pong
  | okPost (leadConnected : Bool) (scoutCount : Nat)

/-- The POST half of the relay handler: ping short-circuits; otherwise
`roomId`/`peerId` are required (truthy), the room is created on first
reference, `join`/`leave` maintain membership, and `join`, `offer`, `answer`
and `ice-candidate` are appended to the queue with empty delivery tracking
(`leave` and unrecognized roles only touch membership). -/
def handlePost (rooms : RoomsMap) (message : SigMsg) (now : Int) :
    RoomsMap × PostResponse :=
  if message.type == .ping then (rooms, .pong)
  else
    match message.roomId, message.peerId with
    | some roomId, some peerId =>
      if roomId = "" ∨ peerId = "" then (rooms, .badRequest)
      else
        let room := (assocGet rooms roomId).getD (newRoom roomId now)
        let room' :=
          match message.type with
          | .join =>
            let r1 :=
              match message.role with
              | some .lead =>
                { room with lead := some ⟨peerId, jsOrStr message.peerName "Lead", now⟩ }
              | some .scout =>
                { room with scouts :=
                    assocSet room.scouts peerId ⟨peerId, jsOrStr message.peerName "Scout", now⟩ }
              | none => room
            { r1 with messages := r1.messages ++ [enqueueMsg message] }
          | .leave =>
            match message.role with
            | some .lead => { room with lead := none }
            | _ => { room with scouts := assocDelete room.scouts peerId }
          | .offer | .answer | .iceCandidate =>
            { room with messages := room.messages ++ [enqueueMsg message] }
          | .ping => room
        (assocSet rooms roomId room', .okPost room'.lead.isSome room'.scouts.length)
    | _, _ => (rooms, .badRequest)

/-- The GET filter: include a queued message iff it is not the poller's own,
was not already delivered to the poller, and is not targeted at someone else
(an absent or empty `targetPeerId` is untargeted — both are JS-falsy). -/
def pollCond (peerId : String) (msg : SigMsg) : Bool :=
  let isOwnMessage := msg.peerId == some peerId
  let alreadyDelivered := msg.deliveredTo.contains peerId
  let isTargetedToSomeoneElse :=
    match msg.targetPeerId with
    | some t => t != "" && t != peerId
    | none => false
  !isOwnMessage && !alreadyDelivered && !isTargetedToSomeoneElse

/-- Mark a message delivered to a peer (`Set.add`). -/
def markDelivered (peerId : String) (msg : SigMsg) : SigMsg :=
  if msg.deliveredTo.contains peerId then msg
  else { msg with deliveredTo := msg.deliveredTo ++ [peerId] }

/-- The queue after marking this poll's deliveries (before cleanup). -/
def pollMarkedQueue (peerId : String) (room : Room) : List SigMsg :=
  room.messages.map fun m => if pollCond peerId m then markDelivered peerId m else m

/-- The post-poll cleanup predicate: a scout's `join` is kept until the lead
has received it, a lead's `join` until every current scout has, and anything
else is kept while its `deliveredTo` set has at most one member. -/
def keepAfterPoll (room : Room) (msg : SigMsg) : Bool :=
  if msg.type == .join && msg.role == some .scout then
    match room.lead with
    | none => true
    | some lead => !msg.deliveredTo.contains lead.id
  else if msg.type == .join && msg.role == some .lead then
    (room.scouts.map Prod.fst).any (fun scoutId => !msg.deliveredTo.contains scoutId)
  else
    decide (msg.deliveredTo.length ≤ 1)

/-- The room after one poll: marked queue, garbage-collected. -/
def pollUpdatedRoom (peerId : String) (room : Room) : Room :=
  { room with messages := (pollMarkedQueue peerId room).filter (keepAfterPoll room) }

/-- Relay GET responses. -/
inductive GetResponse where
  | badRequest
  | okGet (messages : List SigMsg) (leadConnected : Bool) (scoutCount : Nat)
      (scoutInfos : List (String × String))

/-- The GET half of the relay handler: filter the queue for this peer, mark
the returned messages delivered, then garbage-collect the queue. -/
def handleGet : RoomsMap → Option String → Option String → RoomsMap × GetResponse
  | rooms, some roomId, some peerId =>
    if roomId = "" ∨ peerId = "" then (rooms, .badRequest)
    else
      match assocGet rooms roomId with
      | none => (rooms, .okGet [] false 0 [])
      | some room =>
        let messages := (room.messages.filter (pollCond peerId)).map (markDelivered peerId)
        (assocSet rooms roomId (pollUpdatedRoom peerId room),
          .okGet messages room.lead.isSome room.scouts.length
            (room.scouts.map fun p => (p.2.id, p.2.name)))
  | rooms, _, _ => (rooms, .badRequest)

/-- The message list of a GET response. -/
def responseMessages : GetResponse → List SigMsg
  | .badRequest => []
  | .okGet ms _ _ _ => ms

/-- The message queue of a room in the table (empty if the room is absent). -/
def queueOf (rooms : RoomsMap) (roomId : String) : List SigMsg :=
  match assocGet rooms roomId with
  | none => []
  | some room => room.messages

-- ==========================================================================
-- Upload orchestrator (scoutingDataUploadHandler.ts)
-- ==========================================================================

/-- Upload modes. -/
inductive UploadMode where
  | append | overwrite | smartMerge
deriving DecidableEq

/-- The `UploadResult`; `autoProcessed` is the optional `(added, replaced)` pair. -/
structure UploadResult where
  hasConflicts : Bool
  hasBatchReview : Option Bool
  batchReviewEntries : Option (List ScoutingEntryBase)
  conflicts : Option (List ConflictInfo)
  autoProcessed : Option (Nat × Nat)

/-- The `{hasConflicts: false}` early return value. -/
def emptyUploadResult : UploadResult := ⟨false, none, none, none, none⟩

/-- The handler's observable effect: the resulting store, the returned
`UploadResult`, and the reported error / success toasts. -/
structure UploadOutcome where
  store : List ScoutingEntryBase
  result : UploadResult
  toastErrors : List String
  toastSuccesses : List String

/-- The store's `put` (upsert by primary id). -/
def dbPut (store : List ScoutingEntryBase) (e : ScoutingEntryBase) :
    List ScoutingEntryBase :=
  if store.any (fun x => x.id == e.id) then
    store.map (fun x => if x.id == e.id then e else x)
  else store ++ [e]

/-- The store's `delete` by primary id. -/
def dbDelete (store : List ScoutingEntryBase) (entryId : String) :
    List ScoutingEntryBase :=
  store.filter (fun x => x.id != entryId)

/-- The store's `bulkPut`. -/
def dbBulkPut (store : List ScoutingEntryBase) (es : List ScoutingEntryBase) :
    List ScoutingEntryBase :=
  es.foldl dbPut store

/-- The auto-replace pass of smart merge: for each entry, find the first
existing record with the same match/team/alliance/event, delete it, then put
the incoming entry. -/
def applyAutoReplace (store : List ScoutingEntryBase)
    (entries : List ScoutingEntryBase) : List ScoutingEntryBase :=
  entries.foldl
    (fun st entry =>
      let existing := st.find? fun e =>
        e.matchNumber == entry.matchNumber && e.teamNumber == entry.teamNumber &&
          e.allianceColor == entry.allianceColor && e.eventKey == entry.eventKey
      let st1 := match existing with
        | some ex => dbDelete st ex.id
        | none => st
      dbPut st1 entry)
    store

/-- The dynamic upload payload, partitioned by the handler's shape check: a JS
value that is an object with an `entries` array (whose elements the handler
casts to records without further validation), or anything else. -/
inductive UploadJson where
  | entriesObj (entries : List ScoutingEntryBase) : UploadJson
  | malformed (raw : JVal) : UploadJson

/-- The `handleScoutingDataUpload`: validates the payload shape, then dispatches
on the mode (overwrite / append / smart-merge).  The function is total: bad
input produces an error toast and `{hasConflicts: false}`, not a throw. -/
def handleScoutingDataUpload (jsonData : UploadJson) (mode : UploadMode)
    (store : List ScoutingEntryBase) : UploadOutcome :=
  match jsonData with
  | .malformed _ =>
    ⟨store, emptyUploadResult,
      ["Invalid scouting data format. Expected \x7b entries: ScoutingEntryBase[] \x7d"], []⟩
  | .entriesObj newEntries =>
    if newEntries.length = 0 then
      ⟨store, emptyUploadResult, ["No valid scouting data found"], []⟩
    else
      match mode with
      | .overwrite =>
        ⟨dbBulkPut store newEntries, emptyUploadResult, [],
          ["Overwritten with " ++ toString newEntries.length ++ " scouting entries"]⟩
      | .append =>
        let combined := store ++ newEntries
        ⟨dbBulkPut store combined, emptyUploadResult, [],
          ["Uploaded " ++ toString newEntries.length ++ " entries (" ++
            toString store.length ++ " existing). Total: " ++
            toString combined.length ++ " before deduplication."]⟩
      | .smartMerge =>
        let conflictResult := detectConflicts store newEntries
        let store1 :=
          if conflictResult.autoImport.length > 0 then
            dbBulkPut store conflictResult.autoImport
          else store
        let store2 :=
          if conflictResult.autoReplace.length > 0 then
            applyAutoReplace store1 conflictResult.autoReplace
          else store1
        let added := conflictResult.autoImport.length
        let replaced := conflictResult.autoReplace.length
        if conflictResult.conflicts.length > 0 ∨ conflictResult.batchReview.length > 0 then
          let successes :=
            if added > 0 ∨ replaced > 0 then
              ["Imported " ++ toString added ++ " new entries, Replaced " ++
                toString replaced ++ " existing entries." ++
                (if conflictResult.batchReview.length > 0 then
                  " " ++ toString conflictResult.batchReview.length ++ " duplicates need review."
                else "") ++
                (if conflictResult.conflicts.length > 0 then
                  " " ++ toString conflictResult.conflicts.length ++ " conflicts need review."
                else "")]
            else []
          if conflictResult.batchReview.length > 0 then
            ⟨store2,
              ⟨false, some true, some conflictResult.batchReview,
                (if conflictResult.conflicts.length > 0 then some conflictResult.conflicts
                 else none),
                some (added, replaced)⟩, [], successes⟩
          else
            ⟨store2, ⟨true, none, none, some conflictResult.conflicts, some (added, replaced)⟩,
              [], successes⟩
        else
          ⟨store2, ⟨false, none, none, none, some (added, replaced)⟩, [],
            ["Smart merge complete! " ++ toString added ++ " new entries added, " ++
              toString replaced ++ " entries replaced (Total: " ++
              toString store2.length ++ ")"]⟩

-- ==========================================================================
-- Conflict resolution workflow (useConflictResolution.ts)
-- ==========================================================================

/-- A per-conflict decision. -/
inductive ResolutionAction where
  | replace | skip
deriving DecidableEq

/-- The hook's state. -/
structure ResolutionState where
  showConflictDialog : Bool
  currentConflicts : List ConflictInfo
  currentConflictIndex : Nat
  conflictResolutions : List (String × ResolutionAction)
  resolutionHistory : List (Nat × ResolutionAction)

/-- The `getConflictKey`: the match/team/event string key of a conflict. -/
def getConflictKey (conflict : ConflictInfo) : String :=
  toString conflict.local_.matchNumber ++ "-" ++
    toString conflict.local_.teamNumber ++ "-" ++ conflict.local_.eventKey

/-- The state at the start of a review session over a conflict list. -/
def initResolutionState (conflicts : List ConflictInfo) : ResolutionState :=
  ⟨true, conflicts, 0, [], []⟩

/-- The fully reset state after all decisions are applied. -/
def resetResolutionState : ResolutionState := ⟨false, [], 0, [], []⟩

/-- The `applyConflictResolutions`: walk the conflicts in order and, for each one
whose recorded decision is `replace`, delete the local record and put the
incoming one ('skip' and unresolved conflicts leave the store unchanged). -/
def applyConflictResolutions (conflicts : List ConflictInfo)
    (resolutions : List (String × ResolutionAction))
    (store : List ScoutingEntryBase) : List ScoutingEntryBase :=
  conflicts.foldl
    (fun st conflict =>
      match assocGet resolutions (getConflictKey conflict) with
      | some .replace => dbPut (dbDelete st conflict.local_.id) conflict.incoming
      | _ => st)
    store

/-- The `handleConflictResolution` (resolveOne): record the decision for the
current conflict, append to history, and either advance to the next conflict
or — after the last one — apply every decision and reset the session. -/
def handleConflictResolution (action : ResolutionAction)
    (s : ResolutionState) (store : List ScoutingEntryBase) :
    ResolutionState × List ScoutingEntryBase :=
  match s.currentConflicts.get? s.currentConflictIndex with
  | none => (s, store)
  | some currentConflict =>
    let conflictKey := getConflictKey currentConflict
    let updatedResolutions := assocSet s.conflictResolutions conflictKey action
    let updatedHistory := s.resolutionHistory ++ [(s.currentConflictIndex, action)]
    if s.currentConflictIndex < s.currentConflicts.length - 1 then
      ({ s with conflictResolutions := updatedResolutions,
                resolutionHistory := updatedHistory,
                currentConflictIndex := s.currentConflictIndex + 1 }, store)
    else
      (resetResolutionState,
        applyConflictResolutions s.currentConflicts updatedResolutions store)

/-- The `handleUndo`: no-op on empty history; otherwise pop the last history
entry, delete its conflict's decision, and rewind the index to that entry. -/
def handleUndo (s : ResolutionState) : ResolutionState :=
  match s.resolutionHistory.getLast? with
  | none => s
  | some last =>
    match s.currentConflicts.get? last.1 with
    | none => s
    | some lastConflict =>
      { s with
          conflictResolutions :=
            assocDelete s.conflictResolutions (getConflictKey lastConflict),
          resolutionHistory := s.resolutionHistory.dropLast,
          currentConflictIndex := last.1 }

/-- Applies `n` successive undos. -/
def undoN : Nat → ResolutionState → ResolutionState
  | 0, s => s
  | n + 1, s => undoN n (handleUndo s)

/-- Resolving a sequence of decisions one at a time. -/
def resolveMany (actions : List ResolutionAction)
    (s : ResolutionState) (store : List ScoutingEntryBase) :
    ResolutionState × List ScoutingEntryBase :=
  actions.foldl (fun p a => handleConflictResolution a p.1 p.2) (s, store)


-- ==========================================================================
-- Session invariant for the resolution workflow
-- ==========================================================================

/-- States reachable in a review session: the index is inside the conflict
list (or the session is empty/reset), the history records exactly the indices
`0, ..., index-1` in order, and every recorded decision keys a conflict that
was already visited. -/
def SessionInv (s : ResolutionState) : Prop :=
  (s.currentConflictIndex < s.currentConflicts.length ∨
    (s.currentConflictIndex = 0 ∧ s.currentConflicts = [])) ∧
  s.resolutionHistory.map Prod.fst = List.range s.currentConflictIndex ∧
  ∀ k ∈ s.conflictResolutions.map Prod.fst,
    k ∈ (s.currentConflicts.take s.currentConflictIndex).map getConflictKey

-- ==========================================================================
-- Concrete sample data (used by witnesses and counterexamples)
-- ==========================================================================

/-- A corrected local record. -/
def sampleLocalCorrected : ScoutingEntryBase :=
  ⟨"L1", "2025mrcmp", "qm1", 1, 100, "red", "alice", some [("score", .num 10)], 1000, true, some 5000⟩

/-- An uncorrected incoming record for the same observation (different primary
id, same deterministic identity up to case). -/
def sampleIncomingUncorrected : ScoutingEntryBase :=
  ⟨"I1", "2025MRCMP", "qm1", 1, 100, "red", "bob", some [("score", .num 12)], 2000, false, none⟩

/-- An uncorrected local record. -/
def sampleLocalUncorrected : ScoutingEntryBase :=
  ⟨"L2", "2025mrcmp", "qm2", 2, 100, "red", "alice", some [("score", .num 3)], 1000, false, none⟩

/-- A corrected incoming record with the same primary id as `sampleLocalUncorrected`. -/
def sampleIncomingCorrected : ScoutingEntryBase :=
  ⟨"L2", "2025mrcmp", "qm2", 2, 100, "red", "carol", some [("score", .num 4)], 1500, true, some 9000⟩

/-- A corrected local record (both-corrected scenarios). -/
def c3Local : ScoutingEntryBase :=
  ⟨"C3", "2025mrcmp", "qm3", 3, 100, "red", "alice", some [("score", .num 10)], 1000, true, some 5000⟩

/-- Same payload, correction 500 ms later: the near-duplicate case. -/
def c3IncomingNear : ScoutingEntryBase :=
  ⟨"C3", "2025mrcmp", "qm3", 3, 100, "red", "bob", some [("score", .num 10)], 1200, true, some 5500⟩

/-- Different payload, correction 500 ms later: the near-simultaneous-edit case. -/
def c3IncomingNearDiff : ScoutingEntryBase :=
  ⟨"C3", "2025mrcmp", "qm3", 3, 100, "red", "bob", some [("score", .num 11)], 1200, true, some 5500⟩

/-- Different payload, correction much later: the true conflict case. -/
def c3IncomingFar : ScoutingEntryBase :=
  ⟨"C3", "2025mrcmp", "qm3", 3, 100, "red", "bob", some [("score", .num 12)], 1200, true, some 99999⟩

/-- An uncorrected local record (both-uncorrected scenarios). -/
def c4Local : ScoutingEntryBase :=
  ⟨"C4", "2025mrcmp", "qm4", 4, 200, "blue", "alice", some [("a", .num 1)], 1000, false, none⟩

/-- Same payload captured independently (only provenance differs). -/
def c4IncomingSame : ScoutingEntryBase :=
  ⟨"C4", "2025mrcmp", "qm4", 4, 200, "blue", "dan", some [("a", .num 1)], 3000, false, none⟩

/-- Disagreeing payload captured independently. -/
def c4IncomingDiff : ScoutingEntryBase :=
  ⟨"C4", "2025mrcmp", "qm4", 4, 200, "blue", "dan", some [("a", .num 2)], 3000, false, none⟩

/-- A record whose `gameData` field is absent. -/
def c10LocalNoPayload : ScoutingEntryBase :=
  ⟨"C10", "2025mrcmp", "qm5", 5, 300, "red", "alice", none, 1000, false, none⟩

/-- A record whose `gameData` is the empty object. -/
def c10IncomingEmptyPayload : ScoutingEntryBase :=
  ⟨"C10", "2025mrcmp", "qm5", 5, 300, "red", "erin", some [], 4000, false, none⟩

/-- Payload `\x7b a: \x7b b: 1 \x7d, c: 2 \x7d` with keys in one order. -/
def c2EntryA : ScoutingEntryBase :=
  ⟨"C2", "2025mrcmp", "qm6", 6, 400, "blue", "alice", some [("a", .obj [("b", .num 1)]), ("c", .num 2)], 1000, false, none⟩

/-- The same payload with the top-level keys permuted. -/
def c2EntryB : ScoutingEntryBase :=
  ⟨"C2", "2025mrcmp", "qm6", 6, 400, "blue", "alice", some [("c", .num 2), ("a", .obj [("b", .num 1)])], 1000, false, none⟩

/-- Payload with a two-key nested object in one order. -/
def c2NestedA : ScoutingEntryBase :=
  ⟨"C2n", "2025mrcmp", "qm6", 6, 400, "blue", "alice", some [("a", .obj [("b", .num 1), ("c", .num 2)])], 1000, false, none⟩

/-- The same payload with the nested keys permuted. -/
def c2NestedB : ScoutingEntryBase :=
  ⟨"C2n", "2025mrcmp", "qm6", 6, 400, "blue", "alice", some [("a", .obj [("c", .num 2), ("b", .num 1)])], 1000, false, none⟩

/-- The room lead in relay scenarios. -/
def peerA : Peer := ⟨"A", "Lead", 0⟩

/-- A scout in relay scenarios. -/
def peerB : Peer := ⟨"B", "Scout", 0⟩

/-- An offer from the lead `A` targeted at scout `B`, not yet delivered. -/
def offerMsgAtoB : SigMsg := ⟨.offer, some "r1", some "A", some "Lead", some .lead, some "B", none, []⟩

/-- A room with lead `A`, scout `B`, and the pending targeted offer. -/
def sampleRoom : Room := ⟨"r1", some peerA, [("B", peerB)], [offerMsgAtoB], 0⟩

/-- A room table holding `sampleRoom`. -/
def sampleRooms : RoomsMap := [("r1", sampleRoom)]

/-- A `leave` POST from scout `B`. -/
def leaveMsgB : SigMsg := ⟨.leave, some "r1", some "B", some "Scout", some .scout, none, none, []⟩

/-- A `join` POST from a new scout `C`. -/
def joinMsgC : SigMsg := ⟨.join, some "r1", some "C", some "Carl", some .scout, none, none, []⟩

/-- A sample conflict (used to exercise the resolution workflow). -/
def sampleConflict1 : ConflictInfo :=
  ⟨sampleIncomingUncorrected, sampleLocalCorrected, .correctedVsUncorrected, false, []⟩

/-- A second sample conflict over a different local record. -/
def sampleConflict2 : ConflictInfo :=
  ⟨sampleIncomingCorrected, sampleLocalUncorrected, .correctedVsUncorrected, false, []⟩

/-- A mid-session state: two conflicts, the first already resolved. -/
def c9midState : ResolutionState :=
  ⟨true, [sampleConflict1, sampleConflict2], 1,
    [(getConflictKey sampleConflict1, .replace)], [(0, .replace)]⟩

-- ==========================================================================
-- Routing lemmas: bucket membership is classification
-- ==========================================================================

theorem detectConflicts_cons (L : List ScoutingEntryBase) (e : ScoutingEntryBase)
    (rest : List ScoutingEntryBase) :
    detectConflicts L (e :: rest) =
      (let r := detectConflicts L rest
      match classifyEntry L e with
      | .autoImport => { r with autoImport := e :: r.autoImport }
      | .autoReplace => { r with autoReplace := e :: r.autoReplace }
      | .batchReview => { r with batchReview := e :: r.batchReview }
      | .conflictOut ci => { r with conflicts := ci :: r.conflicts }
      | .discard => r) := rfl

theorem detectConflicts_autoImport_mem (L inc : List ScoutingEntryBase)
    (x : ScoutingEntryBase) :
    x ∈ (detectConflicts L inc).autoImport ↔
      x ∈ inc ∧ classifyEntry L x = .autoImport := by
  induction inc with
  | nil => simp [detectConflicts]
  | cons e rest ih =>
    rw [detectConflicts_cons]
    cases h : classifyEntry L e <;> dsimp only
    case autoImport =>
      constructor
      · intro hx
        rcases List.mem_cons.mp hx with rfl | hx'
        · exact ⟨List.mem_cons_self _ _, h⟩
        · obtain ⟨h1, h2⟩ := ih.mp hx'
          exact ⟨List.mem_cons_of_mem _ h1, h2⟩
      · rintro ⟨hx, hcls⟩
        rcases List.mem_cons.mp hx with rfl | hx'
        · exact List.mem_cons_self _ _
        · exact List.mem_cons_of_mem _ (ih.mpr ⟨hx', hcls⟩)
    all_goals
      constructor
      · intro hx
        obtain ⟨h1, h2⟩ := ih.mp hx
        exact ⟨List.mem_cons_of_mem _ h1, h2⟩
      · rintro ⟨hx, hcls⟩
        rcases List.mem_cons.mp hx with rfl | hx'
        · rw [h] at hcls; exact ClassifyOutcome.noConfusion hcls
        · exact ih.mpr ⟨hx', hcls⟩

theorem detectConflicts_autoReplace_mem (L inc : List ScoutingEntryBase)
    (x : ScoutingEntryBase) :
    x ∈ (detectConflicts L inc).autoReplace ↔
      x ∈ inc ∧ classifyEntry L x = .autoReplace := by
  induction inc with
  | nil => simp [detectConflicts]
  | cons e rest ih =>
    rw [detectConflicts_cons]
    cases h : classifyEntry L e <;> dsimp only
    case autoReplace =>
      constructor
      · intro hx
        rcases List.mem_cons.mp hx with rfl | hx'
        · exact ⟨List.mem_cons_self _ _, h⟩
        · obtain ⟨h1, h2⟩ := ih.mp hx'
          exact ⟨List.mem_cons_of_mem _ h1, h2⟩
      · rintro ⟨hx, hcls⟩
        rcases List.mem_cons.mp hx with rfl | hx'
        · exact List.mem_cons_self _ _
        · exact List.mem_cons_of_mem _ (ih.mpr ⟨hx', hcls⟩)
    all_goals
      constructor
      · intro hx
        obtain ⟨h1, h2⟩ := ih.mp hx
        exact ⟨List.mem_cons_of_mem _ h1, h2⟩
      · rintro ⟨hx, hcls⟩
        rcases List.mem_cons.mp hx with rfl | hx'
        · rw [h] at hcls; exact ClassifyOutcome.noConfusion hcls
        · exact ih.mpr ⟨hx', hcls⟩

theorem detectConflicts_batchReview_mem (L inc : List ScoutingEntryBase)
    (x : ScoutingEntryBase) :
    x ∈ (detectConflicts L inc).batchReview ↔
      x ∈ inc ∧ classifyEntry L x = .batchReview := by
  induction inc with
  | nil => simp [detectConflicts]
  | cons e rest ih =>
    rw [detectConflicts_cons]
    cases h : classifyEntry L e <;> dsimp only
    case batchReview =>
      constructor
      · intro hx
        rcases List.mem_cons.mp hx with rfl | hx'
        · exact ⟨List.mem_cons_self _ _, h⟩
        · obtain ⟨h1, h2⟩ := ih.mp hx'
          exact ⟨List.mem_cons_of_mem _ h1, h2⟩
      · rintro ⟨hx, hcls⟩
        rcases List.mem_cons.mp hx with rfl | hx'
        · exact List.mem_cons_self _ _
        · exact List.mem_cons_of_mem _ (ih.mpr ⟨hx', hcls⟩)
    all_goals
      constructor
      · intro hx
        obtain ⟨h1, h2⟩ := ih.mp hx
        exact ⟨List.mem_cons_of_mem _ h1, h2⟩
      · rintro ⟨hx, hcls⟩
        rcases List.mem_cons.mp hx with rfl | hx'
        · rw [h] at hcls; exact ClassifyOutcome.noConfusion hcls
        · exact ih.mpr ⟨hx', hcls⟩

theorem detectConflicts_conflicts_mem (L inc : List ScoutingEntryBase)
    (ci : ConflictInfo) :
    ci ∈ (detectConflicts L inc).conflicts ↔
      ∃ e, e ∈ inc ∧ classifyEntry L e = .conflictOut ci := by
  induction inc with
  | nil => simp [detectConflicts]
  | cons e rest ih =>
    rw [detectConflicts_cons]
    cases h : classifyEntry L e <;> dsimp only
    case conflictOut ci' =>
      constructor
      · intro hx
        rcases List.mem_cons.mp hx with rfl | hx'
        · exact ⟨e, List.mem_cons_self _ _, h⟩
        · obtain ⟨e', h1, h2⟩ := ih.mp hx'
          exact ⟨e', List.mem_cons_of_mem _ h1, h2⟩
      · rintro ⟨e', hx, hcls⟩
        rcases List.mem_cons.mp hx with rfl | hx'
        · rw [h] at hcls
          injection hcls with hci
          exact hci ▸ List.mem_cons_self _ _
        · exact List.mem_cons_of_mem _ (ih.mpr ⟨e', hx', hcls⟩)
    all_goals
      constructor
      · intro hx
        obtain ⟨e', h1, h2⟩ := ih.mp hx
        exact ⟨e', List.mem_cons_of_mem _ h1, h2⟩
      · rintro ⟨e', hx, hcls⟩
        rcases List.mem_cons.mp hx with rfl | hx'
        · rw [h] at hcls; exact ClassifyOutcome.noConfusion hcls
        · exact ih.mpr ⟨e', hx', hcls⟩

/-- A conflict outcome always carries the incoming entry it was built from. -/
theorem classifyEntry_conflictOut_incoming {L : List ScoutingEntryBase}
    {e : ScoutingEntryBase} {ci : ConflictInfo}
    (h : classifyEntry L e = .conflictOut ci) : ci.incoming = e := by
  unfold classifyEntry at h
  split at h
  · exact ClassifyOutcome.noConfusion h
  · dsimp only at h
    repeat' split at h
    all_goals
      first
      | exact ClassifyOutcome.noConfusion h
      | (injection h with h'; exact h' ▸ rfl)

-- ==========================================================================
-- C1: correction precedence in the classifier
-- ==========================================================================

/-- Claim **C1.** For every incoming record that matches a local record (by primary
id or deterministic id): when the local record is corrected and the incoming
one is uncorrected, the pair lands in `conflicts` with conflict type
`corrected-vs-uncorrected` and `isNewerIncoming = false`, and the incoming
record is in none of `autoImport`, `autoReplace`, `batchReview`;
symmetrically, when the local record is uncorrected and the incoming one is
corrected, the incoming record lands in `autoReplace`. -/
theorem classifier_correction_precedence
    (L inc : List ScoutingEntryBase) (e m : ScoutingEntryBase)
    (hm : findMatchingLocal L e = some m) (hin : e ∈ inc) :
    (m.isCorrected = true → e.isCorrected = false →
      ((⟨e, m, .correctedVsUncorrected, false, computeChangedFields m e⟩ : ConflictInfo)
          ∈ (detectConflicts L inc).conflicts ∧
        e ∉ (detectConflicts L inc).autoImport ∧
        e ∉ (detectConflicts L inc).autoReplace ∧
        e ∉ (detectConflicts L inc).batchReview)) ∧
    (m.isCorrected = false → e.isCorrected = true →
      e ∈ (detectConflicts L inc).autoReplace) := by
  constructor
  · intro hl hi
    have hcls : classifyEntry L e =
        .conflictOut ⟨e, m, .correctedVsUncorrected, false, computeChangedFields m e⟩ := by
      unfold classifyEntry
      rw [hm]
      simp [hl, hi]
    refine ⟨(detectConflicts_conflicts_mem _ _ _).mpr ⟨e, hin, hcls⟩, ?_, ?_, ?_⟩
    · intro hmem
      have h2 := ((detectConflicts_autoImport_mem _ _ _).mp hmem).2
      rw [hcls] at h2
      exact ClassifyOutcome.noConfusion h2
    · intro hmem
      have h2 := ((detectConflicts_autoReplace_mem _ _ _).mp hmem).2
      rw [hcls] at h2
      exact ClassifyOutcome.noConfusion h2
    · intro hmem
      have h2 := ((detectConflicts_batchReview_mem _ _ _).mp hmem).2
      rw [hcls] at h2
      exact ClassifyOutcome.noConfusion h2
  · intro hl hi
    have hcls : classifyEntry L e = .autoReplace := by
      unfold classifyEntry
      rw [hm]
      simp [hl, hi]
    exact (detectConflicts_autoReplace_mem _ _ _).mpr ⟨hin, hcls⟩

/-- Witness for C1 at concrete records, in both directions. -/
theorem classifier_correction_precedence_witness :
    ((⟨sampleIncomingUncorrected, sampleLocalCorrected, .correctedVsUncorrected, false,
        computeChangedFields sampleLocalCorrected sampleIncomingUncorrected⟩ : ConflictInfo)
        ∈ (detectConflicts [sampleLocalCorrected] [sampleIncomingUncorrected]).conflicts ∧
      sampleIncomingUncorrected ∉
        (detectConflicts [sampleLocalCorrected] [sampleIncomingUncorrected]).autoReplace) ∧
    sampleIncomingCorrected ∈
      (detectConflicts [sampleLocalUncorrected] [sampleIncomingCorrected]).autoReplace := by
  constructor
  · have h := classifier_correction_precedence [sampleLocalCorrected] [sampleIncomingUncorrected]
      sampleIncomingUncorrected sampleLocalCorrected rfl (List.mem_singleton.mpr rfl)
    obtain ⟨hc, _, hr, _⟩ := h.1 rfl rfl
    exact ⟨hc, hr⟩
  · have h := classifier_correction_precedence [sampleLocalUncorrected] [sampleIncomingCorrected]
      sampleIncomingCorrected sampleLocalUncorrected rfl (List.mem_singleton.mpr rfl)
    exact h.2 rfl rfl

-- ==========================================================================
-- Silent-discard helpers
-- ==========================================================================

/-- Every conflict in the output is the classification of its own incoming
entry. -/
theorem conflicts_incoming_classified (L inc : List ScoutingEntryBase)
    (ci : ConflictInfo) (hci : ci ∈ (detectConflicts L inc).conflicts) :
    classifyEntry L ci.incoming = .conflictOut ci := by
  obtain ⟨e', _, hcls⟩ := (detectConflicts_conflicts_mem _ _ _).mp hci
  have h := classifyEntry_conflictOut_incoming hcls
  rw [h]
  exact hcls

/-- A discarded entry appears in none of the four output buckets. -/
theorem classifyEntry_discard_silent (L inc : List ScoutingEntryBase)
    (e : ScoutingEntryBase) (h : classifyEntry L e = .discard) :
    e ∉ (detectConflicts L inc).autoImport ∧
    e ∉ (detectConflicts L inc).autoReplace ∧
    e ∉ (detectConflicts L inc).batchReview ∧
    ∀ ci ∈ (detectConflicts L inc).conflicts, ci.incoming ≠ e := by
  refine ⟨?_, ?_, ?_, ?_⟩
  · intro hmem
    have h2 := ((detectConflicts_autoImport_mem _ _ _).mp hmem).2
    rw [h] at h2
    exact ClassifyOutcome.noConfusion h2
  · intro hmem
    have h2 := ((detectConflicts_autoReplace_mem _ _ _).mp hmem).2
    rw [h] at h2
    exact ClassifyOutcome.noConfusion h2
  · intro hmem
    have h2 := ((detectConflicts_batchReview_mem _ _ _).mp hmem).2
    rw [h] at h2
    exact ClassifyOutcome.noConfusion h2
  · intro ci hci heq
    have h2 := conflicts_incoming_classified L inc ci hci
    rw [heq, h] at h2
    exact ClassifyOutcome.noConfusion h2

/-- An entry classified into a non-conflict bucket is the incoming side of no
reported conflict. -/
theorem classified_not_conflict_incoming (L inc : List ScoutingEntryBase)
    (e : ScoutingEntryBase) (o : ClassifyOutcome)
    (hcls : classifyEntry L e = o) (ho : ∀ ci, o ≠ .conflictOut ci) :
    ∀ ci ∈ (detectConflicts L inc).conflicts, ci.incoming ≠ e := by
  intro ci hci heq
  have h2 := conflicts_incoming_classified L inc ci hci
  rw [heq, hcls] at h2
  exact ho ci h2

-- ==========================================================================
-- C3: both corrected — skew tolerance
-- ==========================================================================

/-- Claim **C3.** For a matched pair with both records corrected: equal fingerprints
within the 1000 ms skew window are silently discarded; different fingerprints
within the window go to `autoReplace`; different correction times beyond the
window go to `conflicts` as `corrected-vs-corrected`, newer-incoming exactly
when the incoming correction time is strictly greater. -/
theorem classifier_both_corrected_cases
    (L inc : List ScoutingEntryBase) (e m : ScoutingEntryBase)
    (hm : findMatchingLocal L e = some m) (hin : e ∈ inc)
    (hl : m.isCorrected = true) (hi : e.isCorrected = true) :
    (generateDataFingerprint m = generateDataFingerprint e →
      (correctionTime m - correctionTime e).natAbs ≤ 1000 →
      (e ∉ (detectConflicts L inc).autoImport ∧
       e ∉ (detectConflicts L inc).autoReplace ∧
       e ∉ (detectConflicts L inc).batchReview ∧
       ∀ ci ∈ (detectConflicts L inc).conflicts, ci.incoming ≠ e)) ∧
    (generateDataFingerprint m ≠ generateDataFingerprint e →
      (correctionTime m - correctionTime e).natAbs ≤ 1000 →
      e ∈ (detectConflicts L inc).autoReplace) ∧
    (generateDataFingerprint m ≠ generateDataFingerprint e →
      1000 < (correctionTime m - correctionTime e).natAbs →
      ((⟨e, m, .correctedVsCorrected, decide (correctionTime m < correctionTime e),
          computeChangedFields m e⟩ : ConflictInfo)
          ∈ (detectConflicts L inc).conflicts ∧
        (decide (correctionTime m < correctionTime e) = true ↔
          correctionTime m < correctionTime e))) := by
  refine ⟨?_, ?_, ?_⟩
  · intro hfp hnear
    have hcls : classifyEntry L e = .discard := by
      unfold classifyEntry
      rw [hm]
      simp [hl, hi, hfp, hnear]
    exact classifyEntry_discard_silent L inc e hcls
  · intro hfp hnear
    have hcls : classifyEntry L e = .autoReplace := by
      unfold classifyEntry
      rw [hm]
      simp [hl, hi, hfp, hnear]
    exact (detectConflicts_autoReplace_mem _ _ _).mpr ⟨hin, hcls⟩
  · intro hfp hfar
    have hcls : classifyEntry L e =
        .conflictOut ⟨e, m, .correctedVsCorrected,
          decide (correctionTime m < correctionTime e), computeChangedFields m e⟩ := by
      unfold classifyEntry
      rw [hm]
      simp [hl, hi, hfp, Nat.not_le.mpr hfar]
    exact ⟨(detectConflicts_conflicts_mem _ _ _).mpr ⟨e, hin, hcls⟩, decide_eq_true_iff⟩

/-- Witness for C3: the three concrete both-corrected scenarios. -/
theorem classifier_both_corrected_cases_witness :
    (c3IncomingNear ∉ (detectConflicts [c3Local] [c3IncomingNear]).autoReplace ∧
      ∀ ci ∈ (detectConflicts [c3Local] [c3IncomingNear]).conflicts, ci.incoming ≠ c3IncomingNear) ∧
    c3IncomingNearDiff ∈ (detectConflicts [c3Local] [c3IncomingNearDiff]).autoReplace ∧
    (⟨c3IncomingFar, c3Local, .correctedVsCorrected,
        decide (correctionTime c3Local < correctionTime c3IncomingFar),
        computeChangedFields c3Local c3IncomingFar⟩ : ConflictInfo)
      ∈ (detectConflicts [c3Local] [c3IncomingFar]).conflicts := by
  refine ⟨?_, ?_, ?_⟩
  · have h := classifier_both_corrected_cases [c3Local] [c3IncomingNear] c3IncomingNear c3Local
      rfl (List.mem_singleton.mpr rfl) rfl rfl
    obtain ⟨_, hr, _, hc⟩ := h.1 (by decide) (by decide)
    exact ⟨hr, hc⟩
  · have h := classifier_both_corrected_cases [c3Local] [c3IncomingNearDiff] c3IncomingNearDiff
      c3Local rfl (List.mem_singleton.mpr rfl) rfl rfl
    exact h.2.1 (by decide) (by decide)
  · have h := classifier_both_corrected_cases [c3Local] [c3IncomingFar] c3IncomingFar c3Local
      rfl (List.mem_singleton.mpr rfl) rfl rfl
    exact (h.2.2 (by decide) (by decide)).1

-- ==========================================================================
-- C4: both uncorrected — already-synced vs batch review
-- ==========================================================================

/-- Claim **C4.** For a matched pair with both records uncorrected: equal
fingerprints are treated as already-synced and appear in no output bucket;
different fingerprints send the incoming record to `batchReview` and to no
other bucket. -/
theorem classifier_both_uncorrected_cases
    (L inc : List ScoutingEntryBase) (e m : ScoutingEntryBase)
    (hm : findMatchingLocal L e = some m) (hin : e ∈ inc)
    (hl : m.isCorrected = false) (hi : e.isCorrected = false) :
    (generateDataFingerprint m = generateDataFingerprint e →
      (e ∉ (detectConflicts L inc).autoImport ∧
       e ∉ (detectConflicts L inc).autoReplace ∧
       e ∉ (detectConflicts L inc).batchReview ∧
       ∀ ci ∈ (detectConflicts L inc).conflicts, ci.incoming ≠ e)) ∧
    (generateDataFingerprint m ≠ generateDataFingerprint e →
      (e ∈ (detectConflicts L inc).batchReview ∧
       e ∉ (detectConflicts L inc).autoImport ∧
       e ∉ (detectConflicts L inc).autoReplace ∧
       ∀ ci ∈ (detectConflicts L inc).conflicts, ci.incoming ≠ e)) := by
  constructor
  · intro hfp
    have hcls : classifyEntry L e = .discard := by
      unfold classifyEntry
      rw [hm]
      simp [hl, hi, hfp]
    exact classifyEntry_discard_silent L inc e hcls
  · intro hfp
    have hcls : classifyEntry L e = .batchReview := by
      unfold classifyEntry
      rw [hm]
      simp [hl, hi, hfp]
    refine ⟨(detectConflicts_batchReview_mem _ _ _).mpr ⟨hin, hcls⟩, ?_, ?_, ?_⟩
    · intro hmem
      have h2 := ((detectConflicts_autoImport_mem _ _ _).mp hmem).2
      rw [hcls] at h2
      exact ClassifyOutcome.noConfusion h2
    · intro hmem
      have h2 := ((detectConflicts_autoReplace_mem _ _ _).mp hmem).2
      rw [hcls] at h2
      exact ClassifyOutcome.noConfusion h2
    · exact classified_not_conflict_incoming L inc e .batchReview hcls
        (fun ci => ClassifyOutcome.noConfusion)

/-- Witness for C4: concrete agreeing and disagreeing uncorrected captures. -/
theorem classifier_both_uncorrected_cases_witness :
    (c4IncomingSame ∉ (detectConflicts [c4Local] [c4IncomingSame]).batchReview ∧
      c4IncomingSame ∉ (detectConflicts [c4Local] [c4IncomingSame]).autoReplace) ∧
    c4IncomingDiff ∈ (detectConflicts [c4Local] [c4IncomingDiff]).batchReview := by
  constructor
  · have h := classifier_both_uncorrected_cases [c4Local] [c4IncomingSame] c4IncomingSame c4Local
      rfl (List.mem_singleton.mpr rfl) rfl rfl
    obtain ⟨_, hr, hb, _⟩ := h.1 (by decide)
    exact ⟨hb, hr⟩
  · have h := classifier_both_uncorrected_cases [c4Local] [c4IncomingDiff] c4IncomingDiff c4Local
      rfl (List.mem_singleton.mpr rfl) rfl rfl
    exact (h.2 (by decide)).1

-- ==========================================================================
-- C10: payload-less records share one constant fingerprint
-- ==========================================================================

/-- Claim **C10.** Any record whose payload is absent or the empty object has the
constant fingerprint `toBase36of32 2166136261` (the base-36 encoding of the
FNV offset basis); hence two such matched records with equal corrected flags
are content-identical, and in the both-uncorrected case the incoming record is
silently discarded. -/
theorem payloadless_fingerprint_constant
    (L inc : List ScoutingEntryBase) (e m : ScoutingEntryBase)
    (hm : findMatchingLocal L e = some m) (hin : e ∈ inc)
    (hge : e.gameData = none ∨ e.gameData = some [])
    (hgm : m.gameData = none ∨ m.gameData = some []) :
    generateDataFingerprint e = toBase36of32 2166136261 ∧
    generateDataFingerprint m = toBase36of32 2166136261 ∧
    (e.isCorrected = false → m.isCorrected = false →
      (e ∉ (detectConflicts L inc).autoImport ∧
       e ∉ (detectConflicts L inc).autoReplace ∧
       e ∉ (detectConflicts L inc).batchReview ∧
       ∀ ci ∈ (detectConflicts L inc).conflicts, ci.incoming ≠ e)) := by
  have hfe : generateDataFingerprint e = toBase36of32 2166136261 := by
    rcases hge with h | h <;>
      · unfold generateDataFingerprint fingerprintDataString sortedGameData
        rw [h]
        rfl
  have hfm : generateDataFingerprint m = toBase36of32 2166136261 := by
    rcases hgm with h | h <;>
      · unfold generateDataFingerprint fingerprintDataString sortedGameData
        rw [h]
        rfl
  refine ⟨hfe, hfm, ?_⟩
  intro hi hl
  have hcls : classifyEntry L e = .discard := by
    unfold classifyEntry
    rw [hm]
    simp [hl, hi, hfe, hfm]
  exact classifyEntry_discard_silent L inc e hcls

/-- Witness for C10: an absent payload against an empty-object payload. -/
theorem payloadless_fingerprint_constant_witness :
    generateDataFingerprint c10IncomingEmptyPayload = toBase36of32 2166136261 ∧
    generateDataFingerprint c10LocalNoPayload = toBase36of32 2166136261 ∧
    c10IncomingEmptyPayload ∉
      (detectConflicts [c10LocalNoPayload] [c10IncomingEmptyPayload]).batchReview := by
  have h := payloadless_fingerprint_constant [c10LocalNoPayload] [c10IncomingEmptyPayload]
    c10IncomingEmptyPayload c10LocalNoPayload rfl (List.mem_singleton.mpr rfl)
    (Or.inr rfl) (Or.inl rfl)
  exact ⟨h.1, h.2.1, ((h.2.2 rfl rfl).2.2).1⟩

-- ==========================================================================
-- C2: order (in)dependence of the fingerprint
-- ==========================================================================

theorem lexLe_total : ∀ as bs : List Nat, lexLe as bs = true ∨ lexLe bs as = true
  | [], [] => Or.inl rfl
  | [], _ :: _ => Or.inl rfl
  | _ :: _, [] => Or.inr rfl
  | a :: as, b :: bs => by
    rcases Nat.lt_trichotomy a b with h | h | h
    · left; simp [lexLe, h]
    · subst h
      rcases lexLe_total as bs with ih | ih
      · left; simp [lexLe, ih]
      · right; simp [lexLe, ih]
    · right; simp [lexLe, h]

theorem lexLe_trans : ∀ as bs cs : List Nat,
    lexLe as bs = true → lexLe bs cs = true → lexLe as cs = true
  | [], _, _, _, _ => rfl
  | _ :: _, [], _, h, _ => absurd h (by simp [lexLe])
  | _ :: _, _ :: _, [], _, h => absurd h (by simp [lexLe])
  | a :: as, b :: bs, c :: cs, h1, h2 => by
    simp only [lexLe, Bool.or_eq_true, Bool.and_eq_true, decide_eq_true_eq] at h1 h2 ⊢
    rcases h1 with h1 | ⟨hab, h1⟩
    · rcases h2 with h2 | ⟨hbc, _⟩
      · exact Or.inl (h1.trans h2)
      · exact Or.inl (hbc ▸ h1)
    · rcases h2 with h2 | ⟨hbc, h2⟩
      · exact Or.inl (hab ▸ h2)
      · exact Or.inr ⟨hab.trans hbc, lexLe_trans as bs cs h1 h2⟩

theorem lexLe_antisymm : ∀ as bs : List Nat,
    lexLe as bs = true → lexLe bs as = true → as = bs
  | [], [], _, _ => rfl
  | [], _ :: _, _, h => absurd h (by simp [lexLe])
  | _ :: _, [], h, _ => absurd h (by simp [lexLe])
  | a :: as, b :: bs, h1, h2 => by
    simp only [lexLe, Bool.or_eq_true, Bool.and_eq_true, decide_eq_true_eq] at h1 h2
    rcases h1 with h1 | ⟨hab, h1⟩
    · rcases h2 with h2 | ⟨hba, _⟩
      · exact absurd (h1.trans h2) (Nat.lt_irrefl a)
      · exact absurd (hba ▸ h1) (Nat.lt_irrefl a)
    · rcases h2 with h2 | ⟨_, h2⟩
      · exact absurd (hab ▸ h2) (Nat.lt_irrefl a)
      · rw [hab, lexLe_antisymm as bs h1 h2]

instance : IsTotal (String × JVal) entryLe :=
  ⟨fun p q => by unfold entryLe keyLe; exact lexLe_total _ _⟩

instance : IsTrans (String × JVal) entryLe :=
  ⟨fun p q r h1 h2 => by
    unfold entryLe keyLe at h1 h2 ⊢
    exact lexLe_trans _ _ _ h1 h2⟩

/-- The `strCodes` determines the string. -/
theorem strCodes_inj {a b : String} (h : strCodes a = strCodes b) : a = b := by
  unfold strCodes at h
  have hinj : Function.Injective Char.toNat := StrictMono.injective fun _ _ h => h
  have hdata : a.data = b.data := List.map_injective_iff.mpr hinj h
  cases a
  cases b
  exact congrArg String.mk hdata

/-- Two sorted lists that are permutations of each other and have duplicate-free
keys are equal: with distinct keys the key order is a linear order, so the
sorted form is canonical. -/
theorem sorted_perm_nodup_eq : ∀ l1 l2 : List (String × JVal),
    l1.Perm l2 → l1.Sorted entryLe → l2.Sorted entryLe →
    (l1.map Prod.fst).Nodup → l1 = l2
  | [], l2, hp, _, _, _ => hp.nil_eq
  | a :: t1, [], hp, _, _, _ => absurd hp.symm.nil_eq (by simp)
  | a :: t1, b :: t2, hp, hs1, hs2, hnd => by
    obtain ⟨ha1, hs1'⟩ := List.sorted_cons.mp hs1
    obtain ⟨ha2, hs2'⟩ := List.sorted_cons.mp hs2
    by_cases hab : a = b
    · subst hab
      have ht : t1.Perm t2 := hp.cons_inv
      have hnd' : (t1.map Prod.fst).Nodup := (List.nodup_cons.mp (by simpa using hnd)).2
      rw [sorted_perm_nodup_eq t1 t2 ht hs1' hs2' hnd']
    · exfalso
      have hain : a ∈ t2 := by
        have : a ∈ b :: t2 := hp.mem_iff.mp (List.mem_cons_self _ _)
        rcases List.mem_cons.mp this with h | h
        · exact absurd h hab
        · exact h
      have hbin : b ∈ t1 := by
        have : b ∈ a :: t1 := hp.mem_iff.mpr (List.mem_cons_self _ _)
        rcases List.mem_cons.mp this with h | h
        · exact absurd h.symm hab
        · exact h
      have h1 : entryLe a b := ha1 b hbin
      have h2 : entryLe b a := ha2 a hain
      have hkey : a.1 = b.1 := strCodes_inj (lexLe_antisymm _ _ h1 h2)
      have : a.1 ∉ t1.map Prod.fst := (List.nodup_cons.mp (by simpa using hnd)).1
      exact this (hkey ▸ List.mem_map_of_mem Prod.fst hbin)

/-- Claim **C2 (amended).** `generateDataFingerprint` is independent of the
top-level key order of the payload: permuting the (duplicate-free) top-level
entries leaves the fingerprint unchanged, because the top-level entries are
sorted by key before hashing.  (Nested objects, by contrast, are serialized in
insertion order — see the counterexample.) -/
theorem fingerprint_toplevel_order_independent
    (e1 e2 : ScoutingEntryBase)
    (hperm : (e1.gameData.getD []).Perm (e2.gameData.getD []))
    (hnd : ((e1.gameData.getD []).map Prod.fst).Nodup) :
    generateDataFingerprint e1 = generateDataFingerprint e2 := by
  have hs : sortedGameData e1 = sortedGameData e2 := by
    apply sorted_perm_nodup_eq
    · exact (List.perm_insertionSort entryLe _).trans
        (hperm.trans (List.perm_insertionSort entryLe _).symm)
    · exact List.sorted_insertionSort entryLe _
    · exact List.sorted_insertionSort entryLe _
    · exact (((List.perm_insertionSort entryLe _).map Prod.fst).nodup_iff).mpr hnd
  unfold generateDataFingerprint fingerprintDataString
  rw [hs]

/-- Witness for the amended C2: permuting the two top-level keys of
`\x7b a: \x7b b: 1 \x7d, c: 2 \x7d` leaves the fingerprint unchanged. -/
theorem fingerprint_toplevel_order_independent_witness :
    generateDataFingerprint c2EntryA = generateDataFingerprint c2EntryB :=
  fingerprint_toplevel_order_independent c2EntryA c2EntryB
    (List.Perm.swap _ _ _) (by decide)

/-- Counterexample to C2 as stated: permuting the keys *inside a nested
object* changes the fingerprint — nested objects are not flattened or sorted,
they are JSON-serialized in insertion order. -/
theorem fingerprint_nested_order_dependent :
    c2NestedA.gameData = some [("a", JVal.obj [("b", JVal.num 1), ("c", JVal.num 2)])] ∧
    c2NestedB.gameData = some [("a", JVal.obj [("c", JVal.num 2), ("b", JVal.num 1)])] ∧
    ([(("b" : String), JVal.num 1), ("c", JVal.num 2)]).Perm
      [("c", JVal.num 2), ("b", JVal.num 1)] ∧
    generateDataFingerprint c2NestedA ≠ generateDataFingerprint c2NestedB :=
  ⟨rfl, rfl, List.Perm.swap _ _ _, by decide⟩


-- ==========================================================================
-- C5: relay GET delivery semantics
-- ==========================================================================

theorem assocGet_assocSet {β : Type} (m : List (String × β)) (k : String) (v : β) :
    assocGet (assocSet m k v) k = some v := by
  induction m with
  | nil => simp [assocSet, assocGet]
  | cons p rest ih =>
    by_cases h : p.1 = k
    · simp [assocSet, assocGet, h]
    · simp [assocSet, assocGet, h, ih]

theorem markDelivered_peerId (pid : String) (m : SigMsg) :
    (markDelivered pid m).peerId = m.peerId := by
  unfold markDelivered; split <;> rfl

theorem markDelivered_targetPeerId (pid : String) (m : SigMsg) :
    (markDelivered pid m).targetPeerId = m.targetPeerId := by
  unfold markDelivered; split <;> rfl

theorem mem_markDelivered (pid : String) (m : SigMsg) :
    pid ∈ (markDelivered pid m).deliveredTo := by
  unfold markDelivered
  split
  · next h => simpa using h
  · exact List.mem_append_right _ (List.mem_singleton.mpr rfl)

/-- Unpacking the poll filter. -/
theorem pollCond_spec (pid : String) (msg : SigMsg) (h : pollCond pid msg = true) :
    msg.peerId ≠ some pid ∧ pid ∉ msg.deliveredTo ∧
      ∀ t, msg.targetPeerId = some t → t ≠ "" → t = pid := by
  unfold pollCond at h
  simp only [Bool.and_eq_true, Bool.not_eq_true'] at h
  obtain ⟨⟨hown, hdel⟩, htgt⟩ := h
  refine ⟨by simpa using hown, by simpa using hdel, ?_⟩
  intro t ht hne
  rw [ht] at htgt
  simp only [Bool.and_eq_false_iff, bne_eq_false_iff_eq] at htgt
  rcases htgt with h | h
  · exact absurd h hne
  · exact h

/-- A message already delivered to the poller is filtered out. -/
theorem pollCond_of_delivered (pid : String) (msg : SigMsg)
    (h : pid ∈ msg.deliveredTo) : pollCond pid msg = false := by
  cases hb : pollCond pid msg with
  | false => rfl
  | true => exact absurd h (pollCond_spec pid msg hb).2.1

/-- Claim **C5.** A relay GET for `(roomId, peerId)` returns exactly the queued
messages that are not the poller's own, not yet delivered to the poller, and
not targeted at another peer; each returned message gets the poller added to
its `deliveredTo` set, an immediately repeated poll by the same peer returns
nothing, a message is never returned to its sender, and a targeted message is
only returned to its target (an empty `targetPeerId` is JS-falsy, i.e.
untargeted). -/
theorem relay_get_delivery (rooms : RoomsMap) (rid pid : String) (room : Room)
    (hr : assocGet rooms rid = some room) (hrid : rid ≠ "") (hpid : pid ≠ "") :
    (handleGet rooms (some rid) (some pid)).2 =
      .okGet ((room.messages.filter (pollCond pid)).map (markDelivered pid))
        room.lead.isSome room.scouts.length
        (room.scouts.map fun p => (p.2.id, p.2.name)) ∧
    (∀ msg ∈ responseMessages (handleGet rooms (some rid) (some pid)).2,
      msg.peerId ≠ some pid ∧
      pid ∈ msg.deliveredTo ∧
      ∀ t, msg.targetPeerId = some t → t ≠ "" → t = pid) ∧
    responseMessages
      (handleGet (handleGet rooms (some rid) (some pid)).1 (some rid) (some pid)).2 = [] := by
  have hcond : ¬(rid = "" ∨ pid = "") := by simp [hrid, hpid]
  have hresp : handleGet rooms (some rid) (some pid) =
      (assocSet rooms rid (pollUpdatedRoom pid room),
        .okGet ((room.messages.filter (pollCond pid)).map (markDelivered pid))
          room.lead.isSome room.scouts.length
          (room.scouts.map fun p => (p.2.id, p.2.name))) := by
    simp only [handleGet]
    rw [if_neg hcond, hr]
  refine ⟨by rw [hresp], ?_, ?_⟩
  · intro msg hmsg
    rw [hresp] at hmsg
    simp only [responseMessages, List.mem_map] at hmsg
    obtain ⟨m0, hm0, rfl⟩ := hmsg
    obtain ⟨hmem, hcnd⟩ := List.mem_filter.mp hm0
    obtain ⟨hown, _, htgt⟩ := pollCond_spec pid m0 hcnd
    refine ⟨?_, mem_markDelivered pid m0, ?_⟩
    · rw [markDelivered_peerId]; exact hown
    · intro t ht
      rw [markDelivered_targetPeerId] at ht
      exact htgt t ht
  · rw [hresp]
    have hr2 : assocGet (assocSet rooms rid (pollUpdatedRoom pid room)) rid =
        some (pollUpdatedRoom pid room) := assocGet_assocSet _ _ _
    simp only [handleGet]
    rw [if_neg hcond, hr2]
    simp only [responseMessages]
    have hnone : ∀ m ∈ (pollUpdatedRoom pid room).messages, ¬(pollCond pid m = true) := by
      intro m hm
      obtain ⟨hmem, _⟩ := List.mem_filter.mp hm
      obtain ⟨m0, _, rfl⟩ := List.mem_map.mp hmem
      by_cases hc : pollCond pid m0 = true
      · rw [if_pos hc, pollCond_of_delivered pid _ (mem_markDelivered pid m0)]
        exact Bool.false_ne_true
      · rw [if_neg hc]
        exact hc
    rw [List.filter_eq_nil.mpr hnone]
    rfl

/-- Witness for C5: scout `B` polls the sample room and receives the targeted
offer; an immediate second poll returns nothing. -/
theorem relay_get_delivery_witness :
    (handleGet sampleRooms (some "r1") (some "B")).2 =
      .okGet ((sampleRoom.messages.filter (pollCond "B")).map (markDelivered "B"))
        sampleRoom.lead.isSome sampleRoom.scouts.length
        (sampleRoom.scouts.map fun p => (p.2.id, p.2.name)) ∧
    responseMessages
      (handleGet (handleGet sampleRooms (some "r1") (some "B")).1
        (some "r1") (some "B")).2 = [] := by
  have h := relay_get_delivery sampleRooms "r1" "B" sampleRoom rfl
    (by decide) (by decide)
  exact ⟨h.1, h.2.2⟩

-- ==========================================================================
-- C6: targeted-message cleanup (code bug: message survives first delivery)
-- ==========================================================================

/-- Claim **C6 (code behavior at the failing input).** Lead `A` posted an offer
targeted at scout `B`; `B` polls and the offer is delivered to `B` (a peer
other than its sender), yet the post-poll cleanup *keeps* the message: the
cleanup tests `deliveredTo.size <= 1`, and the sender is never a member of
`deliveredTo`, so a message delivered once to its target has size 1 and is
retained (contradicting the code's own comment "keep until delivered once to
someone other than sender"). -/
theorem relay_targeted_message_retained_after_delivery :
    responseMessages (handleGet sampleRooms (some "r1") (some "B")).2 =
      [markDelivered "B" offerMsgAtoB] ∧
    (markDelivered "B" offerMsgAtoB).deliveredTo = ["B"] ∧
    offerMsgAtoB.peerId = some "A" ∧
    queueOf (handleGet sampleRooms (some "r1") (some "B")).1 "r1" =
      [markDelivered "B" offerMsgAtoB] :=
  ⟨rfl, rfl, rfl, rfl⟩

-- ==========================================================================
-- C7: relay POST queue growth
-- ==========================================================================

/-- Claim **C7 (amended).** A relay POST whose type is `join`, `offer`, `answer` or
`ice-candidate` (with truthy `roomId` and `peerId`) appends exactly one
message to the room's queue, with an empty `deliveredTo` set; a `leave` POST
leaves the queue unchanged (it only updates membership). -/
theorem relay_post_queue_append (rooms : RoomsMap) (msg : SigMsg) (now : Int)
    (rid pid : String) (hrid : msg.roomId = some rid) (hpid : msg.peerId = some pid)
    (hridne : rid ≠ "") (hpidne : pid ≠ "") :
    (msg.type = .join ∨ msg.type = .offer ∨ msg.type = .answer ∨ msg.type = .iceCandidate →
      queueOf (handlePost rooms msg now).1 rid = queueOf rooms rid ++ [enqueueMsg msg] ∧
      (enqueueMsg msg).deliveredTo = [] ∧
      (queueOf (handlePost rooms msg now).1 rid).length = (queueOf rooms rid).length + 1) ∧
    (msg.type = .leave →
      queueOf (handlePost rooms msg now).1 rid = queueOf rooms rid) := by
  have hcond : ¬(rid = "" ∨ pid = "") := by simp [hridne, hpidne]
  constructor
  · intro htype
    rcases htype with h | h | h | h
    · have hping : (msg.type == MsgType.ping) = false := by rw [h]; rfl
      rw [h] at hping
      cases hrole : msg.role with
      | none =>
        cases hget : assocGet rooms rid <;>
          simp [handlePost, queueOf, h, hrole, hping, hrid, hpid, hcond, hget,
            assocGet_assocSet, newRoom, enqueueMsg]
      | some r =>
        cases r <;> cases hget : assocGet rooms rid <;>
          simp [handlePost, queueOf, h, hrole, hping, hrid, hpid, hcond, hget,
            assocGet_assocSet, newRoom, enqueueMsg]
    all_goals
      have hping : (msg.type == MsgType.ping) = false := by rw [h]; rfl
      rw [h] at hping
      cases hget : assocGet rooms rid <;>
        simp [handlePost, queueOf, h, hping, hrid, hpid, hcond, hget,
          assocGet_assocSet, newRoom, enqueueMsg]
  · intro h
    have hping : (msg.type == MsgType.ping) = false := by rw [h]; rfl
    rw [h] at hping
    cases hrole : msg.role with
    | none =>
      cases hget : assocGet rooms rid <;>
        simp [handlePost, queueOf, h, hrole, hping, hrid, hpid, hcond, hget,
          assocGet_assocSet, newRoom]
    | some r =>
      cases r <;> cases hget : assocGet rooms rid <;>
        simp [handlePost, queueOf, h, hrole, hping, hrid, hpid, hcond, hget,
          assocGet_assocSet, newRoom]

/-- Witness for C7 (amended): a `join` from a new scout grows the sample
room's queue by exactly the posted message. -/
theorem relay_post_queue_append_witness :
    queueOf (handlePost sampleRooms joinMsgC 0).1 "r1" =
      queueOf sampleRooms "r1" ++ [enqueueMsg joinMsgC] := by
  have h := relay_post_queue_append sampleRooms joinMsgC 0 "r1" "C" rfl rfl
    (by decide) (by decide)
  exact (h.1 (Or.inl rfl)).1

/-- Counterexample to C7 as stated: a `leave` POST (non-ping, with `roomId`
and `peerId`) does *not* append to the queue — the queue stays empty instead
of growing to length one. -/
theorem relay_post_leave_no_append :
    leaveMsgB.type = .leave ∧
    leaveMsgB.roomId = some "r1" ∧ leaveMsgB.peerId = some "B" ∧
    (queueOf (handlePost [] leaveMsgB 0).1 "r1").length = 0 ∧
    ¬((queueOf (handlePost [] leaveMsgB 0).1 "r1").length =
        (queueOf ([] : RoomsMap) "r1").length + 1) :=
  ⟨rfl, rfl, rfl, rfl, by decide⟩

-- ==========================================================================
-- C8: upload validation
-- ==========================================================================

/-- Claim **C8.** In every mode, a malformed payload (not an object with an
`entries` array) or an empty `entries` array makes `handleScoutingDataUpload`
report an error and return `{hasConflicts: false}` with the store exactly
unchanged (the function is total, so no exception escapes). -/
theorem upload_malformed_or_empty_rejected :
    ∀ (mode : UploadMode) (store : List ScoutingEntryBase) (raw : JVal),
      handleScoutingDataUpload (.malformed raw) mode store =
        ⟨store, emptyUploadResult,
          ["Invalid scouting data format. Expected \x7b entries: ScoutingEntryBase[] \x7d"],
          []⟩ ∧
      handleScoutingDataUpload (.entriesObj []) mode store =
        ⟨store, emptyUploadResult, ["No valid scouting data found"], []⟩ :=
  fun _ _ _ => ⟨rfl, rfl⟩

-- ==========================================================================
-- C9: undo round-trip in the resolution workflow
-- ==========================================================================

theorem assocSet_keys_subset {β : Type} (m : List (String × β)) (k : String)
    (v : β) : ∀ x ∈ (assocSet m k v).map Prod.fst, x = k ∨ x ∈ m.map Prod.fst := by
  induction m with
  | nil => simp [assocSet]
  | cons p rest ih =>
    intro x hx
    by_cases hp : p.1 = k
    · simp only [assocSet, if_pos hp, List.map_cons, List.mem_cons] at hx
      rcases hx with h | h
      · exact Or.inl h
      · exact Or.inr (List.mem_cons_of_mem _ h)
    · simp only [assocSet, if_neg hp, List.map_cons, List.mem_cons] at hx
      rcases hx with h | h
      · exact Or.inr (by simp [h])
      · rcases ih x h with h' | h'
        · exact Or.inl h'
        · exact Or.inr (List.mem_cons_of_mem _ h')

theorem assocDelete_keys {β : Type} (m : List (String × β)) (k : String) :
    ∀ x ∈ (assocDelete m k).map Prod.fst, x ≠ k ∧ x ∈ m.map Prod.fst := by
  intro x hx
  obtain ⟨p, hp, rfl⟩ := List.mem_map.mp hx
  obtain ⟨hpm, hne⟩ := List.mem_filter.mp hp
  exact ⟨by simpa using hne, List.mem_map_of_mem _ hpm⟩

/-- One resolve step preserves the session invariant and advances the index by
at most one. -/
theorem sessionInv_resolve (a : ResolutionAction) (s : ResolutionState)
    (store : List ScoutingEntryBase) (h : SessionInv s) :
    SessionInv (handleConflictResolution a s store).1 ∧
      (handleConflictResolution a s store).1.currentConflictIndex ≤
        s.currentConflictIndex + 1 := by
  obtain ⟨hidx, hhist, hkeys⟩ := h
  unfold handleConflictResolution
  cases hc : s.currentConflicts.get? s.currentConflictIndex with
  | none => exact ⟨⟨hidx, hhist, hkeys⟩, Nat.le_succ _⟩
  | some c =>
    have hlt : s.currentConflictIndex < s.currentConflicts.length :=
      List.get?_eq_some.mp hc |>.1
    dsimp only
    split
    · next hlast =>
      refine ⟨⟨Or.inl (show s.currentConflictIndex + 1 < s.currentConflicts.length by omega),
        ?_, ?_⟩, show s.currentConflictIndex + 1 ≤ s.currentConflictIndex + 1 from Nat.le_refl _⟩
      · simpa [List.range_succ] using hhist
      · intro k hk
        have hc2 : s.currentConflicts[s.currentConflictIndex]? = some c := by
          rw [← List.get?_eq_getElem?]
          exact hc
        have htake : s.currentConflicts.take (s.currentConflictIndex + 1) =
            s.currentConflicts.take s.currentConflictIndex ++ [c] := by
          rw [List.take_succ, hc2]
          rfl
        rw [htake, List.map_append, List.mem_append]
        rcases assocSet_keys_subset _ _ _ k hk with h' | h'
        · exact Or.inr (by simp [h'])
        · exact Or.inl (hkeys k h')
    · exact ⟨⟨Or.inr ⟨rfl, rfl⟩, by simp [resetResolutionState], by simp [resetResolutionState]⟩,
        by simp [resetResolutionState]⟩

/-- The invariant holds initially. -/
theorem sessionInv_init (conflicts : List ConflictInfo) :
    SessionInv (initResolutionState conflicts) := by
  refine ⟨?_, by simp [initResolutionState], by simp [initResolutionState]⟩
  cases conflicts with
  | nil => exact Or.inr ⟨rfl, rfl⟩
  | cons c rest => exact Or.inl (by simp [initResolutionState])

/-- The invariant holds after any resolve sequence, and the index is at most
the number of resolutions performed. -/
theorem sessionInv_resolveMany (actions : List ResolutionAction) :
    ∀ (s : ResolutionState) (store : List ScoutingEntryBase), SessionInv s →
      SessionInv (resolveMany actions s store).1 ∧
        (resolveMany actions s store).1.currentConflictIndex ≤
          s.currentConflictIndex + actions.length := by
  induction actions with
  | nil => intro s store h; exact ⟨h, Nat.le_refl _⟩
  | cons a rest ih =>
    intro s store h
    have hstep := sessionInv_resolve a s store h
    have hrec := ih (handleConflictResolution a s store).1
      (handleConflictResolution a s store).2 hstep.1
    have hunfold : resolveMany (a :: rest) s store =
        resolveMany rest (handleConflictResolution a s store).1
          (handleConflictResolution a s store).2 := rfl
    rw [hunfold]
    refine ⟨hrec.1, ?_⟩
    have h2 := hstep.2
    have h3 := hrec.2
    simp only [List.length_cons]
    omega

/-- Undo is a no-op once the history is empty. -/
theorem undoN_history_nil (m : Nat) (s : ResolutionState)
    (h : s.resolutionHistory = []) : undoN m s = s := by
  induction m with
  | zero => rfl
  | succ n ih =>
    have hu : handleUndo s = s := by
      unfold handleUndo
      rw [h]
      rfl
    show undoN n (handleUndo s) = s
    rw [hu]
    exact ih

theorem undoN_add (a b : Nat) (s : ResolutionState) :
    undoN (a + b) s = undoN b (undoN a s) := by
  induction a generalizing s with
  | zero => rw [Nat.zero_add]; rfl
  | succ n ih =>
    have hab : n + 1 + b = n + b + 1 := by omega
    rw [hab]
    show undoN (n + b) (handleUndo s) = undoN b (undoN (n + 1) s)
    rw [ih (handleUndo s)]
    rfl

/-- From any invariant state, undoing `index` times rewinds the index to 0 and
empties both the decision map and the history. -/
theorem sessionInv_undo_all : ∀ (n : Nat) (s : ResolutionState), SessionInv s →
    s.currentConflictIndex = n →
    undoN n s = { s with
      currentConflictIndex := 0
      conflictResolutions := []
      resolutionHistory := [] } := by
  intro n
  induction n with
  | zero =>
    intro s h hidx
    obtain ⟨_, hhist, hkeys⟩ := h
    rw [hidx] at hhist hkeys
    have h1 : s.resolutionHistory = [] := by
      have hh : s.resolutionHistory.map Prod.fst = [] := by simpa using hhist
      exact List.map_eq_nil_iff.mp hh
    have h2 : s.conflictResolutions = [] := by
      have hkeysnil : s.conflictResolutions.map Prod.fst = [] :=
        List.eq_nil_iff_forall_not_mem.mpr (fun k hk => by simpa using hkeys k hk)
      exact List.map_eq_nil_iff.mp hkeysnil
    rcases s with ⟨dlg, cs, idx, res, hist⟩
    simp only at hidx h1 h2
    subst hidx h1 h2
    rfl
  | succ n ih =>
    intro s h hidx
    obtain ⟨hbound, hhist, hkeys⟩ := h
    have hlen : s.currentConflictIndex < s.currentConflicts.length := by
      rcases hbound with h' | ⟨h0, _⟩
      · exact h'
      · omega
    have hn : n < s.currentConflicts.length := by omega
    rw [hidx, List.range_succ] at hhist
    rcases List.eq_nil_or_concat s.resolutionHistory with hnil | ⟨H1, p, hH⟩
    · rw [hnil] at hhist
      exact absurd hhist (by simp)
    obtain ⟨i, a⟩ := p
    rw [List.concat_eq_append] at hH
    rw [hH, List.map_append] at hhist
    have hsplit := List.append_inj' hhist (by simp)
    have hH1 : H1.map Prod.fst = List.range n := hsplit.1
    have hp1 : i = n := by simpa using hsplit.2
    subst hp1
    set c := s.currentConflicts.get ⟨i, hn⟩ with hcdef
    have hc : s.currentConflicts.get? i = some c := List.get?_eq_get hn
    have hu : handleUndo s = { s with
        conflictResolutions := assocDelete s.conflictResolutions (getConflictKey c),
        resolutionHistory := H1,
        currentConflictIndex := i } := by
      unfold handleUndo
      rw [hH]
      rw [List.getLast?_concat]
      dsimp only
      rw [hc]
      dsimp only
      rw [List.dropLast_concat]
    show undoN i (handleUndo s) = _
    rw [hu]
    have hinv' : SessionInv { s with
        conflictResolutions := assocDelete s.conflictResolutions (getConflictKey c),
        resolutionHistory := H1,
        currentConflictIndex := i } := by
      refine ⟨Or.inl (show i < s.currentConflicts.length from hn), hH1, ?_⟩
      intro k hk
      obtain ⟨kne, kmem⟩ := assocDelete_keys _ _ k hk
      have hk2 := hkeys k kmem
      rw [hidx] at hk2
      have hc2 : s.currentConflicts[i]? = some c := by
        rw [← List.get?_eq_getElem?]
        exact hc
      rw [List.take_succ, hc2] at hk2
      simp only [Option.toList_some, List.map_append, List.mem_append,
        List.map_cons, List.map_nil, List.mem_singleton] at hk2
      rcases hk2 with hk2 | hk2
      · exact hk2
      · exact absurd hk2 kne
    have hrec := ih _ hinv' rfl
    rw [hrec]

/-- Claim **C9.** Starting a session over any conflict list and resolving `N`
conflicts one at a time, then undoing `N` times, leaves `currentIndex = 0` and
the resolutions map empty; `undo` on empty history is a no-op; and each undo
pops exactly the last history entry, deletes its conflict's decision, and
rewinds the index to that entry's index. -/
theorem resolution_undo_roundtrip (conflicts : List ConflictInfo)
    (store : List ScoutingEntryBase) (actions : List ResolutionAction) :
    (undoN actions.length
        (resolveMany actions (initResolutionState conflicts) store).1).currentConflictIndex
      = 0 ∧
    (undoN actions.length
        (resolveMany actions (initResolutionState conflicts) store).1).conflictResolutions
      = [] ∧
    (∀ s : ResolutionState, s.resolutionHistory = [] → handleUndo s = s) ∧
    (∀ (s : ResolutionState) (rest : List (Nat × ResolutionAction)) (i : Nat)
        (a : ResolutionAction) (c : ConflictInfo),
      s.resolutionHistory = rest ++ [(i, a)] → s.currentConflicts.get? i = some c →
      handleUndo s = { s with
        conflictResolutions := assocDelete s.conflictResolutions (getConflictKey c),
        resolutionHistory := rest,
        currentConflictIndex := i }) := by
  have hinv := sessionInv_resolveMany actions (initResolutionState conflicts) store
    (sessionInv_init conflicts)
  set s' := (resolveMany actions (initResolutionState conflicts) store).1 with hs'
  have hle : s'.currentConflictIndex ≤ actions.length := by
    have := hinv.2
    simpa [initResolutionState] using this
  have hzero := sessionInv_undo_all s'.currentConflictIndex s' hinv.1 rfl
  have hsum : s'.currentConflictIndex + (actions.length - s'.currentConflictIndex) =
      actions.length := by omega
  have hfull : undoN actions.length s' =
      { s' with
        currentConflictIndex := 0
        conflictResolutions := []
        resolutionHistory := [] } := by
    rw [← hsum, undoN_add, hzero]
    exact undoN_history_nil _ _ rfl
  refine ⟨by rw [hfull], by rw [hfull], ?_, ?_⟩
  · intro s h
    unfold handleUndo
    rw [h]
    rfl
  · intro s rest i a c hh hc
    unfold handleUndo
    rw [hh, List.getLast?_concat]
    show (match s.currentConflicts.get? i with
      | none => s
      | some lastConflict =>
        { s with
            conflictResolutions :=
              assocDelete s.conflictResolutions (getConflictKey lastConflict),
            resolutionHistory := (rest ++ [(i, a)]).dropLast,
            currentConflictIndex := i }) = _
    rw [hc, List.dropLast_concat]

/-- Witness for C9: a two-conflict session resolved twice (which auto-applies
and resets) then undone twice ends at index 0 with no recorded decisions; a
single concrete undo pops the last entry; undo on the reset state is a no-op. -/
theorem resolution_undo_roundtrip_witness :
    (undoN 2 (resolveMany [.replace, .skip]
        (initResolutionState [sampleConflict1, sampleConflict2]) []).1).currentConflictIndex
      = 0 ∧
    (undoN 2 (resolveMany [.replace, .skip]
        (initResolutionState [sampleConflict1, sampleConflict2]) []).1).conflictResolutions
      = [] ∧
    handleUndo c9midState = { c9midState with
      conflictResolutions := assocDelete c9midState.conflictResolutions
        (getConflictKey sampleConflict1),
      resolutionHistory := [],
      currentConflictIndex := 0 } ∧
    handleUndo resetResolutionState = resetResolutionState := by
  have h := resolution_undo_roundtrip [sampleConflict1, sampleConflict2] []
    [.replace, .skip]
  exact ⟨h.1, h.2.1,
    h.2.2.2 c9midState [] 0 .replace sampleConflict1 rfl rfl,
    h.2.2.1 resetResolutionState rfl⟩
